import Mathlib

/-
Verification of the ffmpeg_UI backend core against its specification.

The definitions below are a shallow embedding of the live backend package
(backend/app, started by runtime/run_backend.py as backend.app.main:app),
together with the store layer backend/crud.py and the task-deletion route
backend/routers/tasks.py.  Python data rows become Lean structures, the
relational store becomes a list of rows, and the stateful services become
explicit state-passing functions.  Each definition cites the source
function it embeds.
-/

namespace FfmpegUI

/-! ## Data model (backend/models.py) -/

/-- Row of the processing_tasks table (models.ProcessingTask).  `details` and
`result_file_id` are nullable columns, hence Option. -/
structure TaskRec where
  id : Nat
  owner_id : Nat
  ffmpeg_command : String
  source_filename : String
  output_path : String
  progress : Int
  status : String
  details : Option String
  result_file_id : Option Nat
  deriving Repr, DecidableEq

/-- Row of the files table (models.File). -/
structure FileRec where
  id : Nat
  filename : String
  filepath : String
  owner_id : Nat
  status : String
  deriving Repr, DecidableEq

/-! ## Store operations (backend/crud.py) -/

/-- Field-wise effect of crud.update_task on the matched row.  Python applies
truthiness to `status` and `details` (an empty string is skipped, exactly as
None is), while `progress` and `result_file_id` are guarded by
`is not None`. -/
def applyTaskUpdate (t : TaskRec) (status details : Option String)
    (progress : Option Int) (result_file_id : Option Nat) : TaskRec :=
  let t1 := match status with
    | some s => if s = "" then t else { t with status := s }
    | none => t
  let t2 := match details with
    | some d => if d = "" then t1 else { t1 with details := some d }
    | none => t1
  let t3 := match progress with
    | some p => { t2 with progress := p }
    | none => t2
  match result_file_id with
  | some r => { t3 with result_file_id := some r }
  | none => t3

/-- crud.update_task: the query updates the first row whose id matches
(`.first()`), leaving every other row untouched. -/
def update_task : List TaskRec → Nat → Option String → Option String →
    Option Int → Option Nat → List TaskRec
  | [], _, _, _, _, _ => []
  | t :: ts, task_id, s, d, p, r =>
    if t.id = task_id then applyTaskUpdate t s d p r :: ts
    else t :: update_task ts task_id s d p r

/-- crud.get_task: first row whose id matches. -/
def get_task (db : List TaskRec) (task_id : Nat) : Option TaskRec :=
  db.find? (fun t => t.id = task_id)

/-- crud.delete_task: removes the first row whose id matches, if any. -/
def delete_task : List TaskRec → Nat → List TaskRec
  | [], _ => []
  | t :: ts, task_id => if t.id = task_id then ts else t :: delete_task ts task_id

/-- crud.get_file_by_id: first file row whose id matches. -/
def get_file_by_id (files : List FileRec) (file_id : Nat) : Option FileRec :=
  files.find? (fun f => f.id = file_id)

/-- Removal of the looked-up file row performed by `db.delete(db_file)` inside
crud.delete_file: the first row with the given id disappears. -/
def delete_file_row : List FileRec → Nat → List FileRec
  | [], _ => []
  | f :: fs, file_id => if f.id = file_id then fs else f :: delete_file_row fs file_id

/-- crud.delete_file: looks the file up by id; if absent returns the store
unchanged (the function returns None).  Otherwise it deletes every task whose
result_file_id equals the file id, then every task whose source_filename
equals the deleted file's filename (a plain string comparison on the display
name), and finally the file row itself. -/
def delete_file (files : List FileRec) (tasks : List TaskRec) (file_id : Nat) :
    List FileRec × List TaskRec :=
  match get_file_by_id files file_id with
  | none => (files, tasks)
  | some f =>
    let tasks1 := tasks.filter (fun t => ¬ (t.result_file_id = some file_id))
    let tasks2 := tasks1.filter (fun t => ¬ (t.source_filename = f.filename))
    (delete_file_row files file_id, tasks2)

/-! ## Startup crash recovery (backend/app/main.py, startup_event) -/

/-- Details string written by the startup scan. -/
def restartDetails : String := "Server restarted while task was pending/processing."

/-- startup_event's stale-task scan: every task whose status is in
["processing", "pending"] is marked failed with the restart details; the loop
touches no other row and no other field. -/
def startup_event (db : List TaskRec) : List TaskRec :=
  db.map (fun t =>
    if t.status = "processing" ∨ t.status = "pending" then
      { t with status := "failed", details := some restartDetails }
    else t)

/-! ## Subprocess runner (backend/app/services/ffmpeg_runner.py, run_ffmpeg_blocking)

The blocking runner reads stderr lines from a queue fed by a reader thread,
with a 30 second receive deadline per line.  We embed one execution as the
sequence of queue receptions it performs: each reception either yields a
line, or times out (queue.Empty) with the child either already exited or
still running.  The reader thread enqueues None at EOF, which ends the loop;
we model EOF as the end of the event list. -/

/-- One reception from the stderr queue: a line arrived within 30 seconds, or
the 30 second wait expired (with the recorded result of proc.poll()). -/
inductive RunEvent where
  | line (s : String)
  | timeoutEv (procExited : Bool)
  deriving Repr, DecidableEq

/-- How the loop ended: normally (EOF or a timeout with the child already
exited), carrying the collected stderr lines, or by the stall path (timeout
while the child still runs, raising subprocess.TimeoutExpired). -/
inductive LoopOut where
  | eofExit (acc : List String)
  | stalled
  deriving Repr, DecidableEq

/-- The `while True` reception loop of run_ffmpeg_blocking. -/
def runnerLoop : List RunEvent → List String → LoopOut
  | [], acc => .eofExit acc
  | .line s :: rest, acc => runnerLoop rest (acc ++ [s])
  | .timeoutEv true :: _, acc => .eofExit acc
  | .timeoutEv false :: _, _ => .stalled

/-- Spawn behaviour: subprocess.Popen raises FileNotFoundError when the ffmpeg
binary is absent from PATH; otherwise the child runs, produces the recorded
queue events, and exits with the given status. -/
inductive SpawnBehavior where
  | notFound
  | spawned (events : List RunEvent) (exitCode : Int)
  deriving Repr, DecidableEq

/-- Return value of run_ffmpeg_blocking, plus whether proc.kill() was called
on the stall path. -/
structure RunResult where
  success : Bool
  stderr : String
  killed : Bool
  deriving Repr, DecidableEq

/-- Error string returned from the FileNotFoundError handler. -/
def notFoundMsg : String := "FFmpeg executable not found."

/-- Error string returned from the subprocess.TimeoutExpired handler. -/
def timeoutMsg : String := "FFmpeg process timed out."

/-- run_ffmpeg_blocking: FileNotFoundError yields the not-found failure; a
stall kills the child and yields the timeout failure; otherwise the child is
waited for and success is exactly returncode == 0, with the joined stderr
lines returned. -/
def run_ffmpeg_blocking : SpawnBehavior → RunResult
  | .notFound => ⟨false, notFoundMsg, false⟩
  | .spawned events exitCode =>
    match runnerLoop events [] with
    | .stalled => ⟨false, timeoutMsg, true⟩
    | .eofExit acc => ⟨exitCode == 0, String.join acc, false⟩

/-! ## Progress parsing and coalescing (run_ffmpeg_blocking, lines 72-99)

A stderr line may carry a token matched by the regex
time=(\d+):(\d+):(\d+\.\d+); we embed a matched token as the triple of its
captured hours, minutes and (fractional, non-negative) seconds.  Times are
rationals. -/

/-- Python's int() conversion: truncation toward zero. -/
def pyTrunc (q : ℚ) : Int := if 0 ≤ q then ⌊q⌋ else -⌊-q⌋

/-- elapsed = h * 3600 + mm * 60 + ss. -/
def elapsedOf (h m : Nat) (s : ℚ) : ℚ := (h : ℚ) * 3600 + (m : ℚ) * 60 + s

/-- progress = int(min(99, (elapsed / total_duration) * 100)), computed only
when total_duration > 0; otherwise no numeric progress exists. -/
def computedProgress (elapsed dur : ℚ) : Option Int :=
  if 0 < dur then some (pyTrunc (min 99 (elapsed / dur * 100))) else none

/-- Coalescing state of the reception loop: last_progress (initialised to -1)
and last_update_time (initialised to the loop start). -/
structure CoalesceState where
  last_progress : Int
  last_update_time : ℚ
  deriving Repr, DecidableEq

/-- One progress tick: when progress >= last_progress + 10 or at least 3
seconds passed since last_update_time, the runner publishes (to the
connection manager and, via crud.update_task, to the store) provided
progress < 100, and refreshes both state fields; otherwise nothing happens.
The returned Option Int is the published value, if any. -/
def stepTick (st : CoalesceState) (p : Int) (now : ℚ) : CoalesceState × Option Int :=
  if st.last_progress + 10 ≤ p ∨ 3 ≤ now - st.last_update_time then
    (⟨p, now⟩, if p < 100 then some p else none)
  else (st, none)

/-- Processing of one stderr line at time `now`: if the regex matched (tok is
some) and total_duration > 0, the computed progress feeds the coalescing
step; otherwise the line publishes nothing and changes no state. -/
def lineTick (dur : ℚ) (st : CoalesceState) (tok : Option (Nat × Nat × ℚ))
    (now : ℚ) : CoalesceState × Option Int :=
  match tok with
  | none => (st, none)
  | some (h, m, s) =>
    match computedProgress (elapsedOf h m s) dur with
    | none => (st, none)
    | some p => stepTick st p now

/-! ## Progress hub (backend/app/services/manager.py, ConnectionManager) -/

/-- JSON frame pushed over the websocket: a progress field, plus a status
field when one was supplied (send_progress adds "status" only if truthy). -/
structure Frame where
  progress : Int
  status : Option String
  deriving Repr, DecidableEq

/-- ConnectionManager.send_progress: a frame reaches the observer only when
one is attached under this task id; otherwise the push is silently dropped. -/
def send_progress (conns : List Nat) (task_id : Nat) (progress : Int)
    (status : Option String) : Option Frame :=
  if task_id ∈ conns then some ⟨progress, status⟩ else none

/-! ## Task lifecycle coordinator
(backend/app/services/ffmpeg_runner.py, run_ffmpeg_process)

run_ffmpeg_process drives one task: it marks the task processing, runs the
blocking runner (whose loop issues the coalesced progress updates), and then
performs the terminal store updates.  We embed the sequence of
crud.update_task calls it performs; each call is one UpdateOp holding the
keyword arguments passed. -/

/-- Arguments of one crud.update_task call. -/
structure UpdateOp where
  status : Option String
  details : Option String
  progress : Option Int
  result_file_id : Option Nat
  deriving Repr, DecidableEq

/-- update_task(status="processing", progress=0) issued on entry. -/
def processingOp : UpdateOp := ⟨some "processing", none, some 0, none⟩

/-- update_task(progress=progress) issued by the runner loop for one
published coalesced tick. -/
def tickOp (p : Int) : UpdateOp := ⟨none, none, some p, none⟩

/-- update_task(status="completed", details=full_stderr, progress=100,
result_file_id=new_db_file.id) issued after successful post-processing. -/
def completedOp (stderrTail : String) (fid : Nat) : UpdateOp :=
  ⟨some "completed", some stderrTail, some 100, some fid⟩

/-- update_task(status="failed", details=...) issued on the failure branch
and in the exception handlers. -/
def failedOp (msg : String) : UpdateOp := ⟨some "failed", some msg, none, none⟩

/-- Outcome of the post-processing block that follows a successful run:
either it completes (rename, asset registration, completed update, observer
notification all succeed), or an exception interrupts it before the
completed update was issued, or an exception is raised after the completed
update (the notification `await conn_manager.send_progress(task_id, 100,
"completed")` sits inside the same try block and can raise, e.g. on a
websocket that closed mid-send); in both exception cases the handler issues
update_task(status="failed", details="Post-processing failed: ..."). -/
inductive PostOutcome where
  | ok (file_id : Nat)
  | excBefore (msg : String)
  | excAfter (file_id : Nat) (msg : String)
  deriving Repr, DecidableEq

/-- Outcome of one run_ffmpeg_process execution after the blocking runner
returned: failure (success = False) with the collected stderr, or success
with the recorded post-processing outcome. -/
inductive RunOutcome where
  | failure (stderr : String)
  | succeeded (stderr : String) (post : PostOutcome)
  deriving Repr, DecidableEq

/-- Terminal store updates issued by run_ffmpeg_process for one outcome. -/
def terminalOps : RunOutcome → List UpdateOp
  | .failure st => [failedOp st]
  | .succeeded st (.ok fid) => [completedOp st fid]
  | .succeeded _ (.excBefore msg) => [failedOp ("Post-processing failed: " ++ msg)]
  | .succeeded st (.excAfter fid msg) =>
      [completedOp st fid, failedOp ("Post-processing failed: " ++ msg)]

/-- Complete sequence of crud.update_task calls of one run_ffmpeg_process
execution: the processing mark, then one progress update per published
coalesced tick, then the terminal updates. -/
def run_ffmpeg_process_updates (ticks : List Int) (out : RunOutcome) : List UpdateOp :=
  processingOp :: (ticks.map tickOp ++ terminalOps out)

/-- Application of one update call to the store. -/
def applyOp (db : List TaskRec) (task_id : Nat) (op : UpdateOp) : List TaskRec :=
  update_task db task_id op.status op.details op.progress op.result_file_id

/-- Application of a sequence of update calls to the store. -/
def applyOps (db : List TaskRec) (task_id : Nat) : List UpdateOp → List TaskRec
  | [] => db
  | op :: ops => applyOps (applyOp db task_id op) task_id ops

/-- Every store state seen during a sequence of update calls, the initial one
included. -/
def scanOps (db : List TaskRec) (task_id : Nat) : List UpdateOp → List (List TaskRec)
  | [] => [db]
  | op :: ops => db :: scanOps (applyOp db task_id op) task_id ops

/-- Terminal frame pushed on the failure branch:
conn_manager.send_progress(task_id, 100, "failed"). -/
def failureFrame (conns : List Nat) (task_id : Nat) : Option Frame :=
  send_progress conns task_id 100 (some "failed")

/-! ## Per-user queues, dispatcher and cancellation
(backend/app/services/worker.py; backend/routers/tasks.py, delete_task) -/

/-- Entry of a user's asyncio.Queue (the task_details dict, reduced to the
fields the scheduling claims need). -/
structure QueuedItem where
  task_id : Nat
  owner_id : Nat
  deriving Repr, DecidableEq

/-- Orchestrator state: the task store, the per-user FIFO queues
(user_task_queues, in key insertion order), the active-process table
(active_ffmpeg_processes keys), and a log of the task ids the dispatcher has
handed to run_ffmpeg_process. -/
structure OrchState where
  db : List TaskRec
  queues : List (Nat × List QueuedItem)
  active : List Nat
  invoked : List Nat
  deriving Repr, DecidableEq

/-- DELETE /api/tasks/(task_id) (backend/routers/tasks.py, delete_task).
When the task exists and belongs to the caller, the route calls
terminate_task_process (which only signals the subprocess recorded in the
active-process table, if any: it touches neither the queues nor the store;
the table entry itself is removed later by the runner's finally block) and
then crud.delete_task.  Nothing removes the task from its owner's queue. -/
def delete_task_route (s : OrchState) (uid task_id : Nat) : OrchState :=
  match get_task s.db task_id with
  | none => s
  | some t =>
    if t.owner_id ≠ uid then s
    else { s with db := delete_task s.db task_id }

/-- First user queue holding a waiting item, scanned in key order, together
with that item and the rest of its queue. -/
def firstNonempty : List (Nat × List QueuedItem) →
    Option (Nat × QueuedItem × List QueuedItem)
  | [] => none
  | (_, []) :: rest => firstNonempty rest
  | (u, it :: q) :: _ => some (u, it, q)

/-- Queue map after get_nowait removed the head of user u's queue. -/
def popQueue : List (Nat × List QueuedItem) → Nat → List (Nat × List QueuedItem)
  | [], _ => []
  | (v, q) :: rest, u =>
    if v = u then (v, q.tail) :: rest
    else (v, q) :: popQueue rest u

/-- One pass of the worker loop (backend/app/services/worker.py): scan the
user queues in order, dequeue the first waiting item and hand its task to
run_ffmpeg_process (recorded in the invocation log), then break.  The worker
consults only the queues: it never checks whether the task row still
exists. -/
def worker_step (s : OrchState) : OrchState :=
  match firstNonempty s.queues with
  | none => s
  | some (u, it, _) =>
    { s with queues := popQueue s.queues u, invoked := s.invoked ++ [it.task_id] }

/-! ## Command synthesizer (backend/app/api/process.py, construct_ffmpeg_command)

The synthesizer is pure apart from its call to detect_hardware_encoder (the
cached capability probe) and Python's float formatting in str(...); we pass
the probe result and the number formatter as parameters.  The segments below
follow the command.extend groups of the source in order. -/

/-- Python's substring test `needle in haystack`. -/
def strContains (haystack needle : String) : Bool :=
  decide (needle.toList <:+: haystack.toList)

/-- Request body of POST /api/process (schemas.ProcessPayload), minus the
source file list, which construct_ffmpeg_command does not read. -/
structure ProcessPayload where
  container : String
  startTime : ℚ
  endTime : ℚ
  totalDuration : ℚ
  videoCodec : String
  audioCodec : String
  videoBitrate : Option Int
  audioBitrate : Option Int
  resolution : Option (Int × Int × Bool)
  useHardwareAcceleration : Bool
  preset : String
  deriving Repr, DecidableEq

/-- Hardware substitution of the output video encoder (process.py lines
38-60): applied only when hardware acceleration is requested and the codec is
not "copy"; each vendor maps the software encoder names it supports and
leaves every other codec string unchanged. -/
def hw_video_codec (hw : Option String) (useHW : Bool) (vc : String) : String :=
  if useHW ∧ vc ≠ "copy" then
    if hw = some "nvidia" then
      if vc = "libx264" then "h264_nvenc"
      else if vc = "libx265" then "hevc_nvenc"
      else if vc = "libaom-av1" then "av1_nvenc"
      else vc
    else if hw = some "intel" then
      if vc = "libx264" then "h264_qsv"
      else if vc = "libx265" then "hevc_qsv"
      else vc
    else if hw = some "amd" then
      if vc = "libx264" then "h264_amf"
      else if vc = "libx265" then "hevc_amf"
      else vc
    else if hw = some "mac" then
      if vc = "libx264" then "h264_videotoolbox"
      else if vc = "libx265" then "hevc_videotoolbox"
      else vc
    else vc
  else vc

/-- is_audio_only_output = container in ["mp3", "flac", "wav", "aac", "ogg"]. -/
def is_audio_only (container : String) : Bool :=
  ["mp3", "flac", "wav", "aac", "ogg"].contains container

/-- Container compatibility correction of the video codec (process.py lines
65-84): skipped for audio-only outputs, for "copy", and for any codec whose
name contains a hardware-encoder marker; otherwise mp4/mkv/mov restrict the
codec to their allowed sets and fall back to libx264. -/
def corrected_video_codec (container : String) (isAudioOnly : Bool) (vc : String) :
    String :=
  if ¬ isAudioOnly ∧ vc ≠ "copy" then
    let is_hw_codec := strContains vc "nvenc" || strContains vc "qsv" ||
      strContains vc "amf" || strContains vc "videotoolbox"
    if is_hw_codec then vc
    else if container = "mp4" ∧ ¬ vc ∈ ["libx264", "libx265", "libaom-av1"] then
      "libx264"
    else if container = "mkv" ∧ ¬ vc ∈ ["libx264", "libx265", "libaom-av1", "vp9"] then
      "libx264"
    else if container = "mov" ∧ ¬ vc ∈ ["libx264", "libx265"] then "libx264"
    else vc
  else vc

/-- Container compatibility correction of the audio codec (process.py lines
87-99). -/
def corrected_audio_codec (container ac : String) : String :=
  if ac ≠ "copy" then
    if (container = "mp4" ∨ container = "mov") ∧ ¬ ac ∈ ["aac", "mp3"] then "aac"
    else if container = "mkv" ∧ ¬ ac ∈ ["aac", "mp3", "opus", "flac"] then "aac"
    else if container = "mp3" then "libmp3lame"
    else if container = "flac" then "flac"
    else if container = "aac" then "aac"
    else if container = "wav" then "pcm_s16le"
    else ac
  else ac

/-- Input-side hardware acceleration flags (process.py lines 104-117). -/
def hwAccelFlags (hw : Option String) (useHW : Bool) : List String :=
  if useHW then
    if hw = some "nvidia" then ["-hwaccel", "cuda", "-hwaccel_output_format", "cuda"]
    else if hw = some "intel" then ["-hwaccel", "qsv", "-hwaccel_output_format", "qsv"]
    else []
  else []

/-- Trim flags -ss / -to (process.py lines 120-123); `fmt` stands for
Python's str() on the float. -/
def trim_args (fmt : ℚ → String) (p : ProcessPayload) : List String :=
  (if 0 < p.startTime then ["-ss", fmt p.startTime] else []) ++
  (if p.endTime < p.totalDuration then ["-to", fmt p.endTime] else [])

/-- Stream mapping (process.py lines 125-129): audio-only outputs drop the
video stream and map audio only. -/
def stream_map_args (isAudioOnly : Bool) : List String :=
  if isAudioOnly then ["-vn", "-map", "0:a?"] else ["-map", "0:v?", "-map", "0:a?"]

/-- Vendor classification of the chosen encoder name (process.py lines
137-145). -/
def actual_hw_type_of (vc : String) : String :=
  if strContains vc "nvenc" then "nvidia"
  else if strContains vc "qsv" then "intel"
  else if strContains vc "amf" then "amd"
  else if strContains vc "videotoolbox" then "mac"
  else "cpu"

/-- preset_map lookup with the "balanced" entry as .get default (process.py
lines 147-162). -/
def preset_token (aht preset : String) : String :=
  if aht = "nvidia" then
    if preset = "fast" then "p1" else if preset = "balanced" then "p4"
    else if preset = "quality" then "p7" else "p4"
  else if aht = "intel" then
    if preset = "fast" then "veryfast" else if preset = "balanced" then "medium"
    else if preset = "quality" then "veryslow" else "medium"
  else if aht = "amd" then
    if preset = "fast" then "speed" else if preset = "balanced" then "balanced"
    else if preset = "quality" then "quality" else "balanced"
  else if aht = "mac" then
    if preset = "fast" then "speed" else if preset = "balanced" then "default"
    else if preset = "quality" then "quality" else "default"
  else
    if preset = "fast" then "superfast" else if preset = "balanced" then "medium"
    else if preset = "quality" then "slow" else "medium"

/-- Options following -c:v in the re-encoding branch of the video block
(process.py lines 137-193): preset, resolution, trim keyframe, bitrate. -/
def video_tail (p : ProcessPayload) (vc : String) (enableHW : Bool) : List String :=
  let aht := actual_hw_type_of vc
  let ap := preset_token aht p.preset
  (if aht = "amd" then ["-quality", ap]
   else if aht ≠ "mac" then ["-preset", ap] else []) ++
  (match p.resolution with
   | some (w, h, _) =>
     if enableHW ∧ aht = "nvidia" then
       ["-vf", "scale_cuda=" ++ toString w ++ ":" ++ toString h]
     else if enableHW ∧ aht = "intel" then
       ["-vf", "scale_qsv=" ++ toString w ++ ":" ++ toString h]
     else ["-s", toString w ++ "x" ++ toString h]
   | none => []) ++
  (if 0 < p.startTime ∨ p.endTime < p.totalDuration then
     ["-force_key_frames", "expr:eq(n,0)"] else []) ++
  (match p.videoBitrate with
   | some vb => if vb = 0 then [] else ["-b:v", toString vb ++ "k"]
   | none => [])

/-- Video encoding flags (process.py lines 133-195), given the corrected
codec `vc`; enableHW is enable_input_hw_accel (true iff the request asked for
hardware acceleration). -/
def video_args (p : ProcessPayload) (isAudioOnly : Bool) (vc : String)
    (enableHW : Bool) : List String :=
  if isAudioOnly then []
  else if vc ≠ "copy" then ["-c:v", vc] ++ video_tail p vc enableHW
  else ["-c:v", "copy"]

/-- Audio encoding flags (process.py lines 197-202), given the corrected
codec `ac`; the bitrate guard is Python truthiness, so 0 is skipped. -/
def audio_args (p : ProcessPayload) (ac : String) : List String :=
  if ac ≠ "copy" then
    ["-c:a", ac] ++
    (match p.audioBitrate with
     | some ab => if ab = 0 then [] else ["-b:a", toString ab ++ "k"]
     | none => [])
  else ["-c:a", "copy"]

/-- Everything the source appends to the command before the encoder blocks
(process.py lines 102-131): program name, input hwaccel flags, analysis
options, input, trim, stream mapping, timestamp fixup. -/
def cmd_front (fmt : ℚ → String) (hw : Option String) (useHW : Bool)
    (input_path : String) (isAO : Bool) (p : ProcessPayload) : List String :=
  ["ffmpeg", "-y"] ++ hwAccelFlags hw useHW ++
  ["-analyzeduration", "100M", "-probesize", "100M"] ++ ["-ignore_unknown"] ++
  ["-i", input_path] ++ trim_args fmt p ++ stream_map_args isAO ++
  ["-fflags", "+genpts"]

/-- construct_ffmpeg_command (process.py lines 27-205).  `detected` is the
detect_hardware_encoder() result; the source consults it only when the
request enables hardware acceleration. -/
def construct_ffmpeg_command (fmt : ℚ → String) (detected : Option String)
    (input_path output_path : String) (p : ProcessPayload) : List String :=
  let hw := if p.useHardwareAcceleration then detected else none
  let vc0 := hw_video_codec hw p.useHardwareAcceleration p.videoCodec
  let isAO := is_audio_only p.container
  let vc := corrected_video_codec p.container isAO vc0
  let ac := corrected_audio_codec p.container p.audioCodec
  cmd_front fmt hw p.useHardwareAcceleration input_path isAO p ++
  (video_args p isAO vc p.useHardwareAcceleration ++
    (audio_args p ac ++ [output_path]))

/-! ## Helper lemmas -/

/-- A reception trace made of lines only, followed by a stall event, drives
the loop into the stalled outcome whatever comes later. -/
theorem runnerLoop_stall (pre rest : List RunEvent) (acc : List String)
    (hpre : ∀ e ∈ pre, ∃ s, e = RunEvent.line s) :
    runnerLoop (pre ++ RunEvent.timeoutEv false :: rest) acc = LoopOut.stalled := by
  induction pre generalizing acc with
  | nil => simp [runnerLoop]
  | cons e pre ih =>
    obtain ⟨s, rfl⟩ := hpre e (List.mem_cons_self e pre)
    simpa [runnerLoop] using ih _ (fun x hx => hpre x (List.mem_cons_of_mem _ hx))

/-! ## C3: startup crash recovery -/

/-- C3: the startup scan marks exactly the pending/processing tasks as
failed, writing the restart details and touching no other field, leaves every
terminal task identical, and is the identity on a store without pending or
processing tasks. -/
theorem startup_scan_marks_exactly_stale (db : List TaskRec) :
    ((startup_event db).length = db.length) ∧
    (∀ (i : Nat) (t : TaskRec), db[i]? = some t →
      ((t.status = "processing" ∨ t.status = "pending") →
        (startup_event db)[i]? =
          some { t with status := "failed", details := some restartDetails }) ∧
      (¬ (t.status = "processing" ∨ t.status = "pending") →
        (startup_event db)[i]? = some t)) ∧
    ((∀ t ∈ db, ¬ (t.status = "processing" ∨ t.status = "pending")) →
      startup_event db = db) := by
  refine ⟨by simp [startup_event], ?_, ?_⟩
  · intro i t ht
    constructor
    · intro hstale
      simp [startup_event, ht, hstale]
    · intro hterm
      simp [startup_event, ht, if_neg hterm]
  · intro hclean
    have : db.map (fun t =>
        if t.status = "processing" ∨ t.status = "pending" then
          { t with status := "failed", details := some restartDetails }
        else t) = db.map id := by
      refine List.map_congr_left ?_
      intro t htmem
      simp [if_neg (hclean t htmem)]
    simpa [startup_event] using this

/-- Witness for C3 on a concrete store: one processing task is failed with
the restart details, one completed task is untouched, and the scan is the
identity on a store holding only the completed task. -/
theorem startup_scan_marks_exactly_stale_witness :
    (startup_event [⟨1, 1, "c", "s", "o", 40, "processing", none, none⟩,
        ⟨2, 1, "c", "s", "o", 100, "completed", some "log", some 9⟩] =
      [⟨1, 1, "c", "s", "o", 40, "failed", some restartDetails, none⟩,
        ⟨2, 1, "c", "s", "o", 100, "completed", some "log", some 9⟩]) ∧
    (startup_event [⟨2, 1, "c", "s", "o", 100, "completed", some "log", some 9⟩] =
      [⟨2, 1, "c", "s", "o", 100, "completed", some "log", some 9⟩]) := by
  constructor
  · have h1 := (startup_scan_marks_exactly_stale
      [⟨1, 1, "c", "s", "o", 40, "processing", none, none⟩,
        ⟨2, 1, "c", "s", "o", 100, "completed", some "log", some 9⟩]).2.1
    have ha := (h1 0 ⟨1, 1, "c", "s", "o", 40, "processing", none, none⟩ (by decide)).1
      (by decide)
    have hb := (h1 1 ⟨2, 1, "c", "s", "o", 100, "completed", some "log", some 9⟩
      (by decide)).2 (by decide)
    have hlen := (startup_scan_marks_exactly_stale
      [⟨1, 1, "c", "s", "o", 40, "processing", none, none⟩,
        ⟨2, 1, "c", "s", "o", 100, "completed", some "log", some 9⟩]).1
    exact List.ext_getElem? (fun i => by
      match i with
      | 0 => simpa using ha
      | 1 => simpa using hb
      | (n + 2) => simp [startup_event])
  · exact (startup_scan_marks_exactly_stale
      [⟨2, 1, "c", "s", "o", 100, "completed", some "log", some 9⟩]).2.2 (by decide)

/-! ## C4: stall timeout, missing binary, success flag -/

/-- C4: a 30 second silence while the child still runs kills it and returns
the stall failure; a missing binary returns a distinct error message without
killing anything; and whenever the run was not stall-killed the success flag
is true exactly when the child exited with status zero (and a stall-killed
run never reports success). -/
theorem runner_stall_notfound_success :
    (run_ffmpeg_blocking SpawnBehavior.notFound = ⟨false, notFoundMsg, false⟩ ∧
      notFoundMsg ≠ timeoutMsg) ∧
    (∀ pre rest exitCode, (∀ e ∈ pre, ∃ s, e = RunEvent.line s) →
      run_ffmpeg_blocking
        (SpawnBehavior.spawned (pre ++ RunEvent.timeoutEv false :: rest) exitCode) =
        ⟨false, timeoutMsg, true⟩) ∧
    (∀ events exitCode,
      (run_ffmpeg_blocking (SpawnBehavior.spawned events exitCode)).killed = false →
      ((run_ffmpeg_blocking (SpawnBehavior.spawned events exitCode)).success = true ↔
        exitCode = 0)) ∧
    (∀ b, (run_ffmpeg_blocking b).killed = true →
      (run_ffmpeg_blocking b).success = false) := by
  refine ⟨⟨rfl, by decide⟩, ?_, ?_, ?_⟩
  · intro pre rest exitCode hpre
    simp [run_ffmpeg_blocking, runnerLoop_stall pre rest [] hpre]
  · intro events exitCode hk
    cases h : runnerLoop events [] with
    | stalled => simp [run_ffmpeg_blocking, h] at hk
    | eofExit acc => simp [run_ffmpeg_blocking, h]
  · intro b hk
    cases b with
    | notFound => simp [run_ffmpeg_blocking] at hk
    | spawned events exitCode =>
      cases h : runnerLoop events [] with
      | stalled => simp [run_ffmpeg_blocking, h]
      | eofExit acc => simp [run_ffmpeg_blocking, h] at hk

/-- Witness for C4 at concrete traces: a stall after one line kills and
reports the timeout failure, and a clean exit-zero run reports success. -/
theorem runner_stall_notfound_success_witness :
    run_ffmpeg_blocking (SpawnBehavior.spawned
      [RunEvent.line "frame=1", RunEvent.timeoutEv false] 0) =
      ⟨false, timeoutMsg, true⟩ ∧
    (run_ffmpeg_blocking (SpawnBehavior.spawned [RunEvent.line "ok"] 0)).success = true := by
  constructor
  · exact runner_stall_notfound_success.2.1 [RunEvent.line "frame=1"] [] 0
      (by intro e he; simp at he; exact ⟨"frame=1", he⟩)
  · exact (runner_stall_notfound_success.2.2.1 [RunEvent.line "ok"] 0 (by decide)).mpr rfl

/-! ## C9: asset deletion -/

/-- Removing a file row eliminates the id from lookup when the store ids are
duplicate-free. -/
theorem get_file_by_id_delete_file_row (files : List FileRec) (file_id : Nat)
    (hnd : (files.map FileRec.id).Nodup) :
    get_file_by_id (delete_file_row files file_id) file_id = none := by
  induction files with
  | nil => rfl
  | cons f fs ih =>
    rw [List.map_cons, List.nodup_cons] at hnd
    by_cases hf : f.id = file_id
    · have : ∀ g ∈ fs, ¬ (g.id = file_id) := by
        intro g hg hgid
        exact hnd.1 (by rw [hf, ← hgid]; exact List.mem_map_of_mem FileRec.id hg)
      simp only [delete_file_row, if_pos hf]
      exact List.find?_eq_none.mpr (by
        intro g hg
        simpa using this g hg)
    · simp only [delete_file_row, if_neg hf, get_file_by_id]
      rw [List.find?_cons_of_neg _ (by simpa using hf)]
      exact ih hnd.2

/-- Surviving rows of a file-row removal: every row with a different id
stays. -/
theorem mem_delete_file_row (files : List FileRec) (file_id : Nat) (g : FileRec)
    (hg : g ∈ files) (hgid : g.id ≠ file_id) : g ∈ delete_file_row files file_id := by
  induction files with
  | nil => simp at hg
  | cons f fs ih =>
    rcases List.mem_cons.mp hg with rfl | hmem
    · simp only [delete_file_row, if_neg hgid]
      exact List.mem_cons_self g _
    · by_cases hf : f.id = file_id
      · simpa [delete_file_row, if_pos hf] using hmem
      · simp only [delete_file_row, if_neg hf]
        exact List.mem_cons_of_mem f (ih hmem)

/-- C9 counterexample to the claim as stated: two distinct assets share the
display name "a.mp4"; the only task was created from asset 2 (its
source_filename was copied from that asset and its result_file_id is null,
so it does not refer to asset 1), yet deleting asset 1 removes the task,
because crud.delete_file matches tasks by the source_filename string. -/
theorem delete_file_shared_name_counterexample :
    (delete_file
        [⟨1, "a.mp4", "1/stored-a", 1, "uploaded"⟩,
          ⟨2, "a.mp4", "1/stored-b", 1, "uploaded"⟩]
        [⟨7, 1, "ffmpeg ...", "a.mp4", "1/out", 0, "pending", none, none⟩] 1).2 = [] ∧
    (⟨7, 1, "ffmpeg ...", "a.mp4", "1/out", 0, "pending", none,
        none⟩ : TaskRec).result_file_id ≠ some 1 := by
  exact ⟨rfl, by decide⟩

/-- C9 amended: deleting an asset removes the asset row and exactly the
tasks whose result_file_id is the asset's id or whose source_filename string
equals the deleted asset's display name; tasks are matched by that name, not
by source identity, so tasks whose recorded source name merely coincides are
removed as well, and every file row with a different id survives. -/
theorem delete_file_removes_by_name (files : List FileRec) (tasks : List TaskRec)
    (file_id : Nat) (f : FileRec) (hf : get_file_by_id files file_id = some f) :
    (∀ t : TaskRec, t ∈ (delete_file files tasks file_id).2 ↔
      t ∈ tasks ∧ ¬ t.result_file_id = some file_id ∧ ¬ t.source_filename = f.filename) ∧
    ((files.map FileRec.id).Nodup →
      get_file_by_id (delete_file files tasks file_id).1 file_id = none) ∧
    (∀ g ∈ files, g.id ≠ file_id → g ∈ (delete_file files tasks file_id).1) := by
  refine ⟨?_, ?_, ?_⟩
  · intro t
    simp only [delete_file, hf, List.mem_filter, decide_not, Bool.not_eq_eq_eq_not,
      Bool.not_true, decide_eq_false_iff_not]
    tauto
  · intro hnd
    simp only [delete_file, hf]
    exact get_file_by_id_delete_file_row files file_id hnd
  · intro g hg hgid
    simp only [delete_file, hf]
    exact mem_delete_file_row files file_id g hg hgid

/-- Witness for C9 (amended) on a concrete store: the task holding the
deleted asset as result is removed, the unrelated task survives, lookup of
the deleted id fails, and the other file row survives. -/
theorem delete_file_removes_by_name_witness :
    (¬ (⟨3, 1, "c", "a.mp4", "o", 0, "pending", none, some 1⟩ : TaskRec) ∈
        (delete_file [⟨1, "a.mp4", "p1", 1, "uploaded"⟩, ⟨2, "b.mp4", "p2", 1, "uploaded"⟩]
          [⟨3, 1, "c", "a.mp4", "o", 0, "pending", none, some 1⟩,
            ⟨4, 1, "c", "b.mp4", "o", 0, "pending", none, none⟩] 1).2) ∧
    ((⟨4, 1, "c", "b.mp4", "o", 0, "pending", none, none⟩ : TaskRec) ∈
        (delete_file [⟨1, "a.mp4", "p1", 1, "uploaded"⟩, ⟨2, "b.mp4", "p2", 1, "uploaded"⟩]
          [⟨3, 1, "c", "a.mp4", "o", 0, "pending", none, some 1⟩,
            ⟨4, 1, "c", "b.mp4", "o", 0, "pending", none, none⟩] 1).2) ∧
    get_file_by_id
      (delete_file [⟨1, "a.mp4", "p1", 1, "uploaded"⟩, ⟨2, "b.mp4", "p2", 1, "uploaded"⟩]
        [⟨3, 1, "c", "a.mp4", "o", 0, "pending", none, some 1⟩,
          ⟨4, 1, "c", "b.mp4", "o", 0, "pending", none, none⟩] 1).1 1 = none ∧
    (⟨2, "b.mp4", "p2", 1, "uploaded"⟩ : FileRec) ∈
      (delete_file [⟨1, "a.mp4", "p1", 1, "uploaded"⟩, ⟨2, "b.mp4", "p2", 1, "uploaded"⟩]
        [⟨3, 1, "c", "a.mp4", "o", 0, "pending", none, some 1⟩,
          ⟨4, 1, "c", "b.mp4", "o", 0, "pending", none, none⟩] 1).1 := by
  have h := delete_file_removes_by_name
    [⟨1, "a.mp4", "p1", 1, "uploaded"⟩, ⟨2, "b.mp4", "p2", 1, "uploaded"⟩]
    [⟨3, 1, "c", "a.mp4", "o", 0, "pending", none, some 1⟩,
      ⟨4, 1, "c", "b.mp4", "o", 0, "pending", none, none⟩] 1
    ⟨1, "a.mp4", "p1", 1, "uploaded"⟩ (by decide)
  refine ⟨?_, ?_, ?_, ?_⟩
  · intro hmem
    have := (h.1 ⟨3, 1, "c", "a.mp4", "o", 0, "pending", none, some 1⟩).mp hmem
    exact absurd this.2.1 (by decide)
  · exact (h.1 ⟨4, 1, "c", "b.mp4", "o", 0, "pending", none, none⟩).mpr
      ⟨by decide, by decide, by decide⟩
  · exact h.2.1 (by decide)
  · exact h.2.2 ⟨2, "b.mp4", "p2", 1, "uploaded"⟩ (by decide) (by decide)

/-! ## C1: cancellation of a queued task -/

/-- Deleting the first store row with a given id makes its lookup fail when
the store ids are duplicate-free. -/
theorem get_task_delete_task (db : List TaskRec) (task_id : Nat)
    (hnd : (db.map TaskRec.id).Nodup) :
    get_task (delete_task db task_id) task_id = none := by
  induction db with
  | nil => rfl
  | cons t ts ih =>
    rw [List.map_cons, List.nodup_cons] at hnd
    by_cases ht : t.id = task_id
    · have : ∀ u ∈ ts, ¬ (u.id = task_id) := by
        intro u hu huid
        exact hnd.1 (by rw [ht, ← huid]; exact List.mem_map_of_mem TaskRec.id hu)
      simp only [delete_task, if_pos ht]
      exact List.find?_eq_none.mpr (by intro u hu; simpa using this u hu)
    · simp only [delete_task, if_neg ht, get_task]
      rw [List.find?_cons_of_neg _ (by simpa using ht)]
      exact ih hnd.2

/-- C1 counterexample to the claim as stated: with a single pending task
queued for its owner, the owner's DELETE /api/tasks/5 leaves the queue entry
in place, and the very next dispatcher pass dequeues it and invokes the
runner for the cancelled task. -/
theorem cancel_pending_counterexample :
    (delete_task_route
        ⟨[⟨5, 1, "ffmpeg ...", "a.mp4", "1/out", 0, "pending", none, none⟩],
          [(1, [⟨5, 1⟩])], [], []⟩ 1 5).queues = [(1, [⟨5, 1⟩])] ∧
    (worker_step (delete_task_route
        ⟨[⟨5, 1, "ffmpeg ...", "a.mp4", "1/out", 0, "pending", none, none⟩],
          [(1, [⟨5, 1⟩])], [], []⟩ 1 5)).invoked = [5] := by
  exact ⟨rfl, rfl⟩

/-- C1 amended: an owner's DELETE /api/tasks/(id) deletes the task row (so
later store updates for it are no-ops) and touches neither the queues, the
active-process table nor the invocation log; in particular the cancelled
task's queue entry survives, and whenever an item heads the first non-empty
queue the next dispatcher pass still hands exactly that task to the runner,
cancelled or not. -/
theorem cancel_pending_amended (s : OrchState) (uid task_id : Nat) (t : TaskRec)
    (hget : get_task s.db task_id = some t) (howner : t.owner_id = uid) :
    ((delete_task_route s uid task_id).queues = s.queues ∧
      (delete_task_route s uid task_id).active = s.active ∧
      (delete_task_route s uid task_id).invoked = s.invoked ∧
      ((s.db.map TaskRec.id).Nodup →
        get_task (delete_task_route s uid task_id).db task_id = none)) ∧
    (∀ (u : Nat) (it : QueuedItem) (q : List QueuedItem),
      firstNonempty (delete_task_route s uid task_id).queues = some (u, it, q) →
      (worker_step (delete_task_route s uid task_id)).invoked =
        (delete_task_route s uid task_id).invoked ++ [it.task_id]) := by
  have hroute : delete_task_route s uid task_id =
      { s with db := delete_task s.db task_id } := by
    simp [delete_task_route, hget, howner]
  refine ⟨⟨by rw [hroute], by rw [hroute], by rw [hroute], ?_⟩, ?_⟩
  · intro hnd
    rw [hroute]
    exact get_task_delete_task s.db task_id hnd
  · intro u it q hfirst
    simp [worker_step, hfirst]

/-- Witness for C1 (amended) at the concrete cancelled-while-queued state:
the store row is gone yet the queue still holds the entry, and the next
dispatcher pass invokes the runner for task 5. -/
theorem cancel_pending_amended_witness :
    get_task (delete_task_route
        ⟨[⟨5, 1, "ffmpeg ...", "a.mp4", "1/out", 0, "pending", none, none⟩],
          [(1, [⟨5, 1⟩])], [], []⟩ 1 5).db 5 = none ∧
    (worker_step (delete_task_route
        ⟨[⟨5, 1, "ffmpeg ...", "a.mp4", "1/out", 0, "pending", none, none⟩],
          [(1, [⟨5, 1⟩])], [], []⟩ 1 5)).invoked =
      (delete_task_route
        ⟨[⟨5, 1, "ffmpeg ...", "a.mp4", "1/out", 0, "pending", none, none⟩],
          [(1, [⟨5, 1⟩])], [], []⟩ 1 5).invoked ++ [5] := by
  have h := cancel_pending_amended
    ⟨[⟨5, 1, "ffmpeg ...", "a.mp4", "1/out", 0, "pending", none, none⟩],
      [(1, [⟨5, 1⟩])], [], []⟩ 1 5
    ⟨5, 1, "ffmpeg ...", "a.mp4", "1/out", 0, "pending", none, none⟩ (by decide) rfl
  exact ⟨h.1.2.2.2 (by decide), h.2 1 ⟨5, 1⟩ [] (by decide)⟩

/-! ## Lemmas about update sequences -/

/-- An update never changes the row id. -/
theorem applyTaskUpdate_id (t : TaskRec) (s d : Option String) (p : Option Int)
    (r : Option Nat) : (applyTaskUpdate t s d p r).id = t.id := by
  cases s <;> cases d <;> cases p <;> cases r <;>
    simp only [applyTaskUpdate] <;> split_ifs <;> rfl

/-- update_task(status="processing", progress=0) on a row. -/
theorem applyTaskUpdate_processing (t : TaskRec) :
    applyTaskUpdate t (some "processing") none (some 0) none =
      { t with status := "processing", progress := 0 } := by
  simp [applyTaskUpdate]

/-- update_task(progress=p) on a row. -/
theorem applyTaskUpdate_tick (t : TaskRec) (p : Int) :
    applyTaskUpdate t none none (some p) none = { t with progress := p } := by
  simp [applyTaskUpdate]

/-- update_task(status="failed", details=msg) on a row, for a non-empty
message: only status and details change. -/
theorem applyTaskUpdate_failed (t : TaskRec) (msg : String) (h : msg ≠ "") :
    applyTaskUpdate t (some "failed") (some msg) none none =
      { t with status := "failed", details := some msg } := by
  simp [applyTaskUpdate, h]

/-- Fields of a row after the failed update, message arbitrary: status is
failed, progress and result_file_id are untouched. -/
theorem applyTaskUpdate_failed_fields (t : TaskRec) (msg : String) :
    (applyTaskUpdate t (some "failed") (some msg) none none).status = "failed" ∧
    (applyTaskUpdate t (some "failed") (some msg) none none).progress = t.progress ∧
    (applyTaskUpdate t (some "failed") (some msg) none none).result_file_id =
      t.result_file_id := by
  by_cases h : msg = "" <;> simp [applyTaskUpdate, h]

/-- Fields of a row after the completed update: status completed, progress
100, result_file_id set. -/
theorem applyTaskUpdate_completed_fields (t : TaskRec) (st : String) (fid : Nat) :
    (applyTaskUpdate t (some "completed") (some st) (some 100) (some fid)).status =
      "completed" ∧
    (applyTaskUpdate t (some "completed") (some st) (some 100) (some fid)).progress =
      100 ∧
    (applyTaskUpdate t (some "completed") (some st) (some 100)
      (some fid)).result_file_id = some fid := by
  by_cases h : st = "" <;> simp [applyTaskUpdate, h]

/-- Lookup after an update: the looked-up row is the updated one. -/
theorem get_task_update_task (db : List TaskRec) (tid : Nat) (s d : Option String)
    (p : Option Int) (r : Option Nat) :
    get_task (update_task db tid s d p r) tid =
      (get_task db tid).map (fun t => applyTaskUpdate t s d p r) := by
  induction db with
  | nil => rfl
  | cons x xs ih =>
    by_cases hx : x.id = tid
    · simp only [update_task, if_pos hx, get_task]
      rw [List.find?_cons_of_pos _ (by simp [applyTaskUpdate_id, hx]),
        List.find?_cons_of_pos _ (by simpa using hx)]
      rfl
    · simp only [update_task, if_neg hx, get_task]
      rw [List.find?_cons_of_neg _ (by simpa using hx),
        List.find?_cons_of_neg _ (by simpa using hx)]
      exact ih

/-- Folding one update call into a row. -/
def foldOp (t : TaskRec) (op : UpdateOp) : TaskRec :=
  applyTaskUpdate t op.status op.details op.progress op.result_file_id

/-- Lookup after a sequence of update calls: the looked-up row is the fold
of the updates over the original row. -/
theorem get_task_applyOps (ops : List UpdateOp) (db : List TaskRec) (tid : Nat) :
    get_task (applyOps db tid ops) tid =
      (get_task db tid).map (fun t => ops.foldl foldOp t) := by
  induction ops generalizing db with
  | nil =>
    simp [applyOps]
  | cons op ops ih =>
    simp only [applyOps, List.foldl_cons]
    rw [ih]
    simp only [applyOp]
    rw [get_task_update_task]
    cases get_task db tid <;> rfl

/-- Last published coalesced progress value, given the value in force before
the ticks. -/
def lastPublished : List Int → Int → Int
  | [], dflt => dflt
  | p :: ps, _ => lastPublished ps p

/-- Folding the per-tick progress updates only moves the progress field to
the last published value. -/
theorem foldl_tickOps (ticks : List Int) (t : TaskRec) :
    (ticks.map tickOp).foldl foldOp t =
      { t with progress := lastPublished ticks t.progress } := by
  induction ticks generalizing t with
  | nil => simp [lastPublished]
  | cons p ps ih =>
    simp only [List.map_cons, List.foldl_cons, lastPublished]
    rw [show foldOp t (tickOp p) = { t with progress := p } from
      applyTaskUpdate_tick t p]
    exact ih { t with progress := p }

/-! ## C10: failure branch store update and observer frame -/

/-- C10 counterexample to the claim as stated: a run that fails with an
empty stderr tail does not store the tail, because crud.update_task skips
falsy details; the previous details value survives. -/
theorem failure_empty_stderr_counterexample :
    get_task (applyOps [⟨5, 1, "ffmpeg ...", "a.mp4", "1/out", 37, "pending",
        some "old details", none⟩] 5
      (run_ffmpeg_process_updates [] (RunOutcome.failure ""))) 5 =
      some ⟨5, 1, "ffmpeg ...", "a.mp4", "1/out", 0, "failed", some "old details",
        none⟩ := by
  decide

/-- C10 amended: when the runner reports failure with a non-empty stderr
tail, run_ffmpeg_process leaves the task row unchanged except that its
status becomes failed, its details become the tail, and its progress stands
at the last value published during the run (the processing mark resets it to
0 and each published tick overwrites it); result_file_id is untouched.  The
attached observer, if any, receives a frame with progress 100 and status
failed; without an observer the push is dropped. -/
theorem failure_branch_update_and_frame (db : List TaskRec) (tid : Nat) (t : TaskRec)
    (ticks : List Int) (st : String) (conns : List Nat)
    (hget : get_task db tid = some t) (hst : st ≠ "") :
    get_task (applyOps db tid (run_ffmpeg_process_updates ticks (RunOutcome.failure st)))
        tid =
      some { t with
              status := "failed",
              details := some st,
              progress := lastPublished ticks 0 } ∧
    (tid ∈ conns → failureFrame conns tid = some ⟨100, some "failed"⟩) ∧
    (tid ∉ conns → failureFrame conns tid = none) := by
  refine ⟨?_, fun hmem => by simp [failureFrame, send_progress, hmem],
    fun hmem => by simp [failureFrame, send_progress, hmem]⟩
  rw [get_task_applyOps, hget]
  simp only [Option.map_some', run_ffmpeg_process_updates, terminalOps,
    List.foldl_cons, List.foldl_append, List.foldl_nil]
  have hproc : foldOp t processingOp = { t with status := "processing", progress := 0 } :=
    applyTaskUpdate_processing t
  rw [hproc, foldl_tickOps ticks { t with status := "processing", progress := 0 }]
  simp only [List.foldl_cons, List.foldl_nil]
  have hfail : ∀ u : TaskRec, foldOp u (failedOp st) =
      { u with status := "failed", details := some st } :=
    fun u => applyTaskUpdate_failed u st hst
  rw [hfail]

/-- Witness for C10 (amended): concrete failing run with two published
ticks; the row keeps progress 40, gains the tail, and the attached observer
receives the failed frame with progress 100. -/
theorem failure_branch_update_and_frame_witness :
    get_task (applyOps [⟨5, 1, "ffmpeg ...", "a.mp4", "1/out", 0, "pending", none,
        none⟩] 5
      (run_ffmpeg_process_updates [10, 40] (RunOutcome.failure "tail text"))) 5 =
      some ⟨5, 1, "ffmpeg ...", "a.mp4", "1/out", 40, "failed", some "tail text",
        none⟩ ∧
    failureFrame [5] 5 = some ⟨100, some "failed"⟩ := by
  have h := failure_branch_update_and_frame
    [⟨5, 1, "ffmpeg ...", "a.mp4", "1/out", 0, "pending", none, none⟩] 5
    ⟨5, 1, "ffmpeg ...", "a.mp4", "1/out", 0, "pending", none, none⟩
    [10, 40] "tail text" [5] (by decide) (by decide)
  exact ⟨h.1, h.2.1 (by decide)⟩

/-! ## C2: lifecycle invariant -/

/-- The data-model invariant claimed for task rows: completed implies full
progress and a result asset; failed implies no result asset. -/
def taskInv (t : TaskRec) : Prop :=
  (t.status = "completed" → t.progress = 100 ∧ t.result_file_id ≠ none) ∧
  (t.status = "failed" → t.result_file_id = none)

/-- Rows of an updated store: each row either was already present or is the
update of a present row whose id matched. -/
theorem mem_update_task {db : List TaskRec} {tid : Nat} {s d : Option String}
    {p : Option Int} {r : Option Nat} {t : TaskRec}
    (h : t ∈ update_task db tid s d p r) :
    t ∈ db ∨ ∃ t0, t0 ∈ db ∧ t0.id = tid ∧ t = applyTaskUpdate t0 s d p r := by
  induction db with
  | nil => simp [update_task] at h
  | cons x xs ih =>
    by_cases hx : x.id = tid
    · simp only [update_task, if_pos hx] at h
      rcases List.mem_cons.mp h with rfl | hmem
      · exact Or.inr ⟨x, List.mem_cons_self x xs, hx, rfl⟩
      · exact Or.inl (List.mem_cons_of_mem x hmem)
    · simp only [update_task, if_neg hx] at h
      rcases List.mem_cons.mp h with rfl | hmem
      · exact Or.inl (List.mem_cons_self t xs)
      · rcases ih hmem with hin | ⟨t0, ht0, hid, rfl⟩
        · exact Or.inl (List.mem_cons_of_mem x hin)
        · exact Or.inr ⟨t0, List.mem_cons_of_mem x ht0, hid, rfl⟩

/-- Mid-run shape of the rows carrying the running task's id: no result
asset recorded and no terminal status yet. -/
def PreRec (tid : Nat) (db : List TaskRec) : Prop :=
  ∀ t ∈ db, t.id = tid →
    t.result_file_id = none ∧ t.status ≠ "completed" ∧ t.status ≠ "failed"

/-- A mid-run store satisfies the lifecycle invariant vacuously. -/
theorem PreRec_inv {tid : Nat} {db : List TaskRec} (h : PreRec tid db) :
    ∀ t ∈ db, t.id = tid → taskInv t := by
  intro t ht hid
  obtain ⟨hr, hc, hf⟩ := h t ht hid
  exact ⟨fun hcc => absurd hcc hc, fun _ => hr⟩

/-- The processing mark keeps the store mid-run. -/
theorem PreRec_processing {tid : Nat} {db : List TaskRec} (h : PreRec tid db) :
    PreRec tid (applyOp db tid processingOp) := by
  intro t ht hid
  rcases mem_update_task ht with hin | ⟨t0, hmem, hid0, rfl⟩
  · exact h t hin hid
  · have heq : applyTaskUpdate t0 processingOp.status processingOp.details
        processingOp.progress processingOp.result_file_id =
        { t0 with status := "processing", progress := 0 } :=
      applyTaskUpdate_processing t0
    rw [heq]
    exact ⟨(h t0 hmem hid0).1, by simp, by simp⟩

/-- A published progress tick keeps the store mid-run. -/
theorem PreRec_tick {tid : Nat} {db : List TaskRec} (p : Int) (h : PreRec tid db) :
    PreRec tid (applyOp db tid (tickOp p)) := by
  intro t ht hid
  rcases mem_update_task ht with hin | ⟨t0, hmem, hid0, rfl⟩
  · exact h t hin hid
  · have heq : applyTaskUpdate t0 (tickOp p).status (tickOp p).details
        (tickOp p).progress (tickOp p).result_file_id =
        { t0 with progress := p } :=
      applyTaskUpdate_tick t0 p
    rw [heq]
    obtain ⟨hr, hc, hf⟩ := h t0 hmem hid0
    exact ⟨hr, hc, hf⟩

/-- The failed update establishes the invariant on a mid-run store: the row
becomes failed while its result_file_id is still empty. -/
theorem inv_applyOp_failed {tid : Nat} {db : List TaskRec} (msg : String)
    (h : PreRec tid db) :
    ∀ t ∈ applyOp db tid (failedOp msg), t.id = tid → taskInv t := by
  intro t ht hid
  rcases mem_update_task ht with hin | ⟨t0, hmem, hid0, rfl⟩
  · exact PreRec_inv h t hin hid
  · have hflds : (applyTaskUpdate t0 (failedOp msg).status (failedOp msg).details
        (failedOp msg).progress (failedOp msg).result_file_id).status = "failed" ∧
        (applyTaskUpdate t0 (failedOp msg).status (failedOp msg).details
          (failedOp msg).progress (failedOp msg).result_file_id).progress =
          t0.progress ∧
        (applyTaskUpdate t0 (failedOp msg).status (failedOp msg).details
          (failedOp msg).progress (failedOp msg).result_file_id).result_file_id =
          t0.result_file_id :=
      applyTaskUpdate_failed_fields t0 msg
    obtain ⟨hs, hp, hr⟩ := hflds
    refine ⟨fun hc => ?_, fun _ => ?_⟩
    · rw [hs] at hc
      exact absurd hc (by decide)
    · rw [hr]
      exact (h t0 hmem hid0).1

/-- The completed update establishes the invariant on a mid-run store: the
row becomes completed with progress 100 and a result asset. -/
theorem inv_applyOp_completed {tid : Nat} {db : List TaskRec} (st : String)
    (fid : Nat) (h : PreRec tid db) :
    ∀ t ∈ applyOp db tid (completedOp st fid), t.id = tid → taskInv t := by
  intro t ht hid
  rcases mem_update_task ht with hin | ⟨t0, hmem, hid0, rfl⟩
  · exact PreRec_inv h t hin hid
  · have hflds : (applyTaskUpdate t0 (completedOp st fid).status
        (completedOp st fid).details (completedOp st fid).progress
        (completedOp st fid).result_file_id).status = "completed" ∧
        (applyTaskUpdate t0 (completedOp st fid).status (completedOp st fid).details
          (completedOp st fid).progress (completedOp st fid).result_file_id).progress =
          100 ∧
        (applyTaskUpdate t0 (completedOp st fid).status (completedOp st fid).details
          (completedOp st fid).progress
          (completedOp st fid).result_file_id).result_file_id = some fid :=
      applyTaskUpdate_completed_fields t0 st fid
    obtain ⟨hs, hp, hr⟩ := hflds
    refine ⟨fun _ => ⟨hp, ?_⟩, fun hf => ?_⟩
    · rw [hr]
      simp
    · rw [hs] at hf
      exact absurd hf (by decide)

/-- The invariant holds in every state reached while applying the terminal
updates of an outcome without a post-completion exception. -/
theorem inv_scan_terminal {tid : Nat} {db : List TaskRec} (out : RunOutcome)
    (h : PreRec tid db)
    (hout : ∀ st fid msg, out ≠ RunOutcome.succeeded st (PostOutcome.excAfter fid msg)) :
    ∀ db2 ∈ scanOps db tid (terminalOps out), ∀ t ∈ db2, t.id = tid → taskInv t := by
  cases out with
  | failure st =>
    intro db2 hdb2
    simp only [terminalOps, scanOps] at hdb2
    rcases List.mem_cons.mp hdb2 with rfl | hdb2
    · exact PreRec_inv h
    · rcases List.mem_singleton.mp hdb2 with rfl
      exact inv_applyOp_failed st h
  | succeeded st post =>
    cases post with
    | ok fid =>
      intro db2 hdb2
      simp only [terminalOps, scanOps] at hdb2
      rcases List.mem_cons.mp hdb2 with rfl | hdb2
      · exact PreRec_inv h
      · rcases List.mem_singleton.mp hdb2 with rfl
        exact inv_applyOp_completed st fid h
    | excBefore msg =>
      intro db2 hdb2
      simp only [terminalOps, scanOps] at hdb2
      rcases List.mem_cons.mp hdb2 with rfl | hdb2
      · exact PreRec_inv h
      · rcases List.mem_singleton.mp hdb2 with rfl
        exact inv_applyOp_failed _ h
    | excAfter fid msg => exact absurd rfl (hout st fid msg)

/-- The invariant holds in every state reached while applying the published
ticks and then the terminal updates. -/
theorem inv_scan_ticks {tid : Nat} (out : RunOutcome)
    (hout : ∀ st fid msg, out ≠ RunOutcome.succeeded st (PostOutcome.excAfter fid msg)) :
    ∀ (ticks : List Int) (db : List TaskRec), PreRec tid db →
      ∀ db2 ∈ scanOps db tid (ticks.map tickOp ++ terminalOps out),
        ∀ t ∈ db2, t.id = tid → taskInv t := by
  intro ticks
  induction ticks with
  | nil =>
    intro db h db2 hdb2
    exact inv_scan_terminal out h hout db2 (by simpa using hdb2)
  | cons p ps ih =>
    intro db h db2 hdb2
    simp only [List.map_cons, List.cons_append, scanOps] at hdb2
    rcases List.mem_cons.mp hdb2 with rfl | hdb2
    · exact PreRec_inv h
    · exact ih (applyOp db tid (tickOp p)) (PreRec_tick p h) db2 hdb2

/-- C2 counterexample to the claim as stated: starting from a fresh pending
task, a successful run whose post-processing raises after the completed
update (the observer notification sits inside the same try block) ends with
the coordinator's failed update, leaving a row whose status is failed while
its result_file_id is still the registered asset — the claimed
failed-implies-null invariant is violated after that update. -/
theorem completed_then_failed_counterexample :
    (get_task (applyOps [⟨5, 1, "ffmpeg ...", "a.mp4", "1/out", 0, "pending", none,
        none⟩] 5
      (run_ffmpeg_process_updates [40]
        (RunOutcome.succeeded "tail" (PostOutcome.excAfter 9 "send failed")))) 5).map
      (fun t => (t.status, t.result_file_id)) = some ("failed", some 9) := by
  decide

/-- C2 amended: for a task whose rows start fresh (pending, no result
asset), every store state produced by run_ffmpeg_process's update sequence
satisfies the invariant — completed implies progress 100 and a result asset,
failed implies no result asset — provided the run does not hit an exception
after the completed update was already issued; on that exceptional path the
final failed row keeps the already-registered result_file_id. -/
theorem lifecycle_invariant_amended (db : List TaskRec) (tid : Nat)
    (ticks : List Int) (out : RunOutcome)
    (hfresh : ∀ t ∈ db, t.id = tid → t.status = "pending" ∧ t.result_file_id = none)
    (hout : ∀ st fid msg, out ≠ RunOutcome.succeeded st (PostOutcome.excAfter fid msg)) :
    ∀ db2 ∈ scanOps db tid (run_ffmpeg_process_updates ticks out),
      ∀ t ∈ db2, t.id = tid → taskInv t := by
  have hpre : PreRec tid db := by
    intro t ht hid
    obtain ⟨hs, hr⟩ := hfresh t ht hid
    refine ⟨hr, ?_, ?_⟩ <;> rw [hs] <;> decide
  intro db2 hdb2
  simp only [run_ffmpeg_process_updates, scanOps] at hdb2
  rcases List.mem_cons.mp hdb2 with rfl | hdb2
  · exact PreRec_inv hpre
  · exact inv_scan_ticks out hout ticks (applyOp db tid processingOp)
      (PreRec_processing hpre) db2 hdb2

/-- Witness for C2 (amended) on a concrete run: one pending task, one
published tick, successful post-processing; the final completed row
satisfies the invariant. -/
theorem lifecycle_invariant_amended_witness :
    taskInv ⟨5, 1, "ffmpeg ...", "a.mp4", "1/out", 100, "completed", some "tail",
      some 9⟩ := by
  refine lifecycle_invariant_amended
    [⟨5, 1, "ffmpeg ...", "a.mp4", "1/out", 0, "pending", none, none⟩] 5 [40]
    (RunOutcome.succeeded "tail" (PostOutcome.ok 9)) (by decide)
    (by intro st fid msg hcontra; simp at hcontra)
    [⟨5, 1, "ffmpeg ...", "a.mp4", "1/out", 100, "completed", some "tail", some 9⟩]
    (by decide)
    ⟨5, 1, "ffmpeg ...", "a.mp4", "1/out", 100, "completed", some "tail", some 9⟩
    (by decide) rfl

/-! ## C5: progress formula and the 99 cap -/

/-- Truncation of a capped non-negative value: the floor and the integer cap
commute. -/
theorem floor_min_99 (x : ℚ) : ⌊min 99 x⌋ = min 99 ⌊x⌋ := by
  rcases le_total x 99 with hx | hx
  · rw [min_eq_right hx]
    have hfl : ⌊x⌋ ≤ 99 := by
      have h2 : ⌊x⌋ ≤ ⌊(99 : ℚ)⌋ := Int.floor_le_floor hx
      simpa using h2
    rw [min_eq_right hfl]
  · rw [min_eq_left hx]
    have hfl : (99 : ℤ) ≤ ⌊x⌋ := Int.le_floor.mpr (by exact_mod_cast hx)
    rw [min_eq_left hfl]
    simp

/-- C5: for every parsed time token and positive total duration the computed
value is min(99, floor(100 × elapsed / total_duration)); every numeric
progress the runner publishes is at most 99 — never 100, which only the
coordinator's completed update carries — and a non-positive total duration
publishes no numeric progress and leaves the coalescing state untouched. -/
theorem progress_formula_and_cap :
    (∀ (h m : Nat) (s dur : ℚ), 0 ≤ s → 0 < dur →
      computedProgress (elapsedOf h m s) dur =
        some (min 99 ⌊100 * elapsedOf h m s / dur⌋)) ∧
    (∀ (dur : ℚ) (st : CoalesceState) (tok : Option (Nat × Nat × ℚ)) (now : ℚ)
      (p : Int), (lineTick dur st tok now).2 = some p → p ≤ 99) ∧
    (∀ (dur : ℚ) (st : CoalesceState) (tok : Option (Nat × Nat × ℚ)) (now : ℚ),
      dur ≤ 0 → lineTick dur st tok now = (st, none)) ∧
    (∀ (ticks : List Int) (out : RunOutcome) (op : UpdateOp),
      op ∈ run_ffmpeg_process_updates ticks out → (∀ q ∈ ticks, q ≤ 99) →
      ∀ q : Int, op.progress = some q → 100 ≤ q → op.status = some "completed") := by
  refine ⟨?_, ?_, ?_, ?_⟩
  · intro h m s dur hs hdur
    have he : (0 : ℚ) ≤ elapsedOf h m s := by
      unfold elapsedOf
      have h1 : (0 : ℚ) ≤ (h : ℚ) * 3600 := by positivity
      have h2 : (0 : ℚ) ≤ (m : ℚ) * 60 := by positivity
      linarith
    have hx : (0 : ℚ) ≤ elapsedOf h m s / dur * 100 := by positivity
    have hmin : (0 : ℚ) ≤ min 99 (elapsedOf h m s / dur * 100) :=
      le_min (by norm_num) hx
    simp only [computedProgress, if_pos hdur, pyTrunc, if_pos hmin]
    rw [floor_min_99]
    have harg : elapsedOf h m s / dur * 100 = 100 * elapsedOf h m s / dur := by ring
    rw [harg]
  · intro dur st tok now p hp
    cases tok with
    | none => simp [lineTick] at hp
    | some tr =>
      obtain ⟨h, m, s⟩ := tr
      simp only [lineTick] at hp
      cases hcp : computedProgress (elapsedOf h m s) dur with
      | none => rw [hcp] at hp; simp at hp
      | some p0 =>
        rw [hcp] at hp
        simp only [stepTick] at hp
        split_ifs at hp with h1 h2
        rw [Option.some_inj] at hp
        omega
  · intro dur st tok now hdur
    cases tok with
    | none => rfl
    | some tr =>
      obtain ⟨h, m, s⟩ := tr
      simp [lineTick, computedProgress, not_lt.mpr hdur]
  · intro ticks out op hop hticks q hq hq100
    simp only [run_ffmpeg_process_updates, List.mem_cons, List.mem_append,
      List.mem_map] at hop
    rcases hop with rfl | ⟨p, hpmem, rfl⟩ | hterm
    · simp only [processingOp] at hq
      rw [Option.some_inj] at hq
      omega
    · simp only [tickOp] at hq
      rw [Option.some_inj] at hq
      have := hticks p hpmem
      omega
    · cases out with
      | failure st =>
        rcases List.mem_singleton.mp hterm with rfl
        simp [failedOp] at hq
      | succeeded st post =>
        cases post with
        | ok fid =>
          rcases List.mem_singleton.mp hterm with rfl
          rfl
        | excBefore msg =>
          rcases List.mem_singleton.mp hterm with rfl
          simp [failedOp] at hq
        | excAfter fid msg =>
          rcases List.mem_cons.mp hterm with rfl | hterm2
          · rfl
          · rcases List.mem_singleton.mp hterm2 with rfl
            simp [failedOp] at hq

/-- Witness for C5: at time token 0:1:0.5 against a 120 second duration the
formula instance holds, and with duration 0 the line publishes nothing and
keeps the loop state. -/
theorem progress_formula_and_cap_witness :
    (0 ≤ (1 / 2 : ℚ) ∧ 0 < (120 : ℚ) ∧
      computedProgress (elapsedOf 0 1 (1 / 2)) 120 =
        some (min 99 ⌊100 * elapsedOf 0 1 (1 / 2) / 120⌋)) ∧
    ((0 : ℚ) ≤ 0 ∧ lineTick 0 ⟨-1, 0⟩ (some (0, 0, 5)) 7 = (⟨-1, 0⟩, none)) := by
  constructor
  · exact ⟨by norm_num, by norm_num,
      progress_formula_and_cap.1 0 1 (1 / 2) 120 (by norm_num) (by norm_num)⟩
  · exact ⟨le_refl 0,
      progress_formula_and_cap.2.2.1 0 ⟨-1, 0⟩ (some (0, 0, 5)) 7 (by norm_num)⟩

/-! ## C6: coalescing policy -/

/-- C6: a non-terminal publish happens exactly when the new progress is at
least 10 points above the last published value or at least 3 seconds passed
since the last publish; a tick failing the condition publishes nothing and
leaves the coalescing state unchanged, and a publishing tick records its
value and time as the new reference point. -/
theorem coalescing_policy (dur : ℚ) (st : CoalesceState)
    (tok : Option (Nat × Nat × ℚ)) (now : ℚ) :
    (∀ p : Int, (lineTick dur st tok now).2 = some p →
      st.last_progress + 10 ≤ p ∨ 3 ≤ now - st.last_update_time) ∧
    (∀ (h m : Nat) (s : ℚ) (p : Int), tok = some (h, m, s) →
      computedProgress (elapsedOf h m s) dur = some p →
      ¬ (st.last_progress + 10 ≤ p ∨ 3 ≤ now - st.last_update_time) →
      lineTick dur st tok now = (st, none)) ∧
    (∀ (h m : Nat) (s : ℚ) (p : Int), tok = some (h, m, s) →
      computedProgress (elapsedOf h m s) dur = some p → p ≤ 99 →
      (st.last_progress + 10 ≤ p ∨ 3 ≤ now - st.last_update_time) →
      (lineTick dur st tok now).2 = some p ∧
      (lineTick dur st tok now).1 = ⟨p, now⟩) := by
  refine ⟨?_, ?_, ?_⟩
  · intro p hp
    cases tok with
    | none => simp [lineTick] at hp
    | some tr =>
      obtain ⟨h, m, s⟩ := tr
      simp only [lineTick] at hp
      cases hcp : computedProgress (elapsedOf h m s) dur with
      | none => rw [hcp] at hp; simp at hp
      | some p0 =>
        rw [hcp] at hp
        simp only [stepTick] at hp
        split_ifs at hp with h1 h2
        rw [Option.some_inj] at hp
        exact hp ▸ h1
  · intro h m s p htok hcp hcond
    subst htok
    simp [lineTick, hcp, stepTick, if_neg hcond]
  · intro h m s p htok hcp hple hcond
    subst htok
    have hlt : p < 100 := by omega
    simp [lineTick, hcp, stepTick, if_pos hcond, hlt]

/-- Witness for C6 at a concrete tick: from last published 30 at time 0, a
token meaning progress 50 at time 1 publishes (50 ≥ 30 + 10) and resets the
reference point, while progress 35 at time 1 is suppressed. -/
theorem coalescing_policy_witness :
    (computedProgress (elapsedOf 0 0 5) 10 = some 50 ∧
      (lineTick 10 ⟨30, 0⟩ (some (0, 0, 5)) 1).2 = some 50 ∧
      (lineTick 10 ⟨30, 0⟩ (some (0, 0, 5)) 1).1 = ⟨50, 1⟩) ∧
    (computedProgress (elapsedOf 0 0 (7 / 2)) 10 = some 35 ∧
      lineTick 10 ⟨30, 0⟩ (some (0, 0, 7 / 2)) 1 = (⟨30, 0⟩, none)) := by
  constructor
  · have h50 : computedProgress (elapsedOf 0 0 5) 10 = some 50 := by
      norm_num [computedProgress, elapsedOf, pyTrunc]
    have h := (coalescing_policy 10 ⟨30, 0⟩ (some (0, 0, 5)) 1).2.2 0 0 5 50 rfl h50
      (by norm_num) (by left; norm_num)
    exact ⟨h50, h.1, h.2⟩
  · have h35 : computedProgress (elapsedOf 0 0 (7 / 2)) 10 = some 35 := by
      norm_num [computedProgress, elapsedOf, pyTrunc]
    have h := (coalescing_policy 10 ⟨30, 0⟩ (some (0, 0, 7 / 2)) 1).2.1 0 0 (7 / 2) 35
      rfl h35 (by norm_num)
    exact ⟨h35, h⟩

/-! ## C7: mp4 video codec compatibility rewrite -/

/-- The hardware substitution leaves any codec outside the three software
encoder names unchanged. -/
theorem hw_video_codec_not_special (hw : Option String) (useHW : Bool) (vc : String)
    (h264 : vc ≠ "libx264") (h265 : vc ≠ "libx265") (hav1 : vc ≠ "libaom-av1") :
    hw_video_codec hw useHW vc = vc := by
  simp [hw_video_codec, h264, h265, hav1]

/-- The mp4 compatibility check rewrites a non-copy, non-hardware codec
outside the allowed set to libx264. -/
theorem corrected_video_codec_mp4 (vc : String) (hcopy : vc ≠ "copy")
    (hnv : strContains vc "nvenc" = false) (hqsv : strContains vc "qsv" = false)
    (hamf : strContains vc "amf" = false)
    (hvtb : strContains vc "videotoolbox" = false)
    (hallowed : ¬ vc ∈ (["libx264", "libx265", "libaom-av1"] : List String)) :
    corrected_video_codec "mp4" false vc = "libx264" := by
  simp [corrected_video_codec, hcopy, hnv, hqsv, hamf, hvtb, hallowed]

/-- C7 counterexample to the claim as stated: the requested codec
h264_nvenc is neither copy nor in the allowed software set, yet the
synthesizer keeps it (codecs carrying a hardware-encoder marker are exempt
from the rewrite), so no libx264 substitution happens. -/
theorem mp4_hw_codec_not_rewritten_counterexample :
    construct_ffmpeg_command (fun _ => "0") none "in.mp4" "out.mp4"
        ⟨"mp4", 0, 10, 10, "h264_nvenc", "aac", none, none, none, false,
          "balanced"⟩ =
      ["ffmpeg", "-y", "-analyzeduration", "100M", "-probesize", "100M",
        "-ignore_unknown", "-i", "in.mp4", "-map", "0:v?", "-map", "0:a?",
        "-fflags", "+genpts", "-c:v", "h264_nvenc", "-preset", "p4",
        "-c:a", "aac", "out.mp4"] ∧
    "libx264" ∉
      (["ffmpeg", "-y", "-analyzeduration", "100M", "-probesize", "100M",
        "-ignore_unknown", "-i", "in.mp4", "-map", "0:v?", "-map", "0:a?",
        "-fflags", "+genpts", "-c:v", "h264_nvenc", "-preset", "p4",
        "-c:a", "aac", "out.mp4"] : List String) := by
  exact ⟨rfl, by decide⟩

/-- C7 amended: for container mp4, a requested video codec that is not copy,
carries no hardware-encoder marker (nvenc, qsv, amf, videotoolbox) and is
not in the allowed set is replaced by libx264 in the synthesized argv; in
particular the concrete vp9 request is rewritten to -c:v libx264 and its
argv holds no -c:v vp9. -/
theorem mp4_video_codec_rewrite (fmt : ℚ → String) (detected : Option String)
    (input_path output_path : String) (p : ProcessPayload)
    (hcont : p.container = "mp4") (hcopy : p.videoCodec ≠ "copy")
    (hnv : strContains p.videoCodec "nvenc" = false)
    (hqsv : strContains p.videoCodec "qsv" = false)
    (hamf : strContains p.videoCodec "amf" = false)
    (hvtb : strContains p.videoCodec "videotoolbox" = false)
    (hallowed : ¬ p.videoCodec ∈ (["libx264", "libx265", "libaom-av1"] : List String)) :
    (["-c:v", "libx264"] <:+:
      construct_ffmpeg_command fmt detected input_path output_path p) ∧
    (["-c:v", "libx264"] <:+:
      construct_ffmpeg_command (fun _ => "0") none "in.mp4" "out.mp4"
        ⟨"mp4", 0, 5, 10, "vp9", "aac", none, none, none, false, "balanced"⟩) ∧
    ¬ (["-c:v", "vp9"] <:+:
      construct_ffmpeg_command (fun _ => "0") none "in.mp4" "out.mp4"
        ⟨"mp4", 0, 5, 10, "vp9", "aac", none, none, none, false, "balanced"⟩) := by
  refine ⟨?_, by decide, by decide⟩
  have h264 : p.videoCodec ≠ "libx264" := fun hh => hallowed (by simp [hh])
  have h265 : p.videoCodec ≠ "libx265" := fun hh => hallowed (by simp [hh])
  have hav1 : p.videoCodec ≠ "libaom-av1" := fun hh => hallowed (by simp [hh])
  simp only [construct_ffmpeg_command, hcont]
  have hAO : is_audio_only "mp4" = false := rfl
  rw [hAO, hw_video_codec_not_special _ _ _ h264 h265 hav1,
    corrected_video_codec_mp4 p.videoCodec hcopy hnv hqsv hamf hvtb hallowed]
  have hva : video_args p false "libx264" p.useHardwareAcceleration =
      ["-c:v", "libx264"] ++ video_tail p "libx264" p.useHardwareAcceleration := by
    simp [video_args]
  rw [hva]
  refine ⟨cmd_front fmt (if p.useHardwareAcceleration then detected else none)
      p.useHardwareAcceleration input_path false p,
    video_tail p "libx264" p.useHardwareAcceleration ++
      (audio_args p (corrected_audio_codec "mp4" p.audioCodec) ++ [output_path]), ?_⟩
  simp [List.append_assoc]

/-- Witness for C7 (amended) at the claim's own test vector: container mp4
with requested codec vp9 (no hardware marker, outside the allowed set)
produces an argv carrying -c:v libx264. -/
theorem mp4_video_codec_rewrite_witness :
    ["-c:v", "libx264"] <:+:
      construct_ffmpeg_command (fun _ => "0") none "in.mp4" "out.mp4"
        ⟨"mp4", 0, 5, 10, "vp9", "aac", none, none, none, false, "balanced"⟩ :=
  (mp4_video_codec_rewrite (fun _ => "0") none "in.mp4" "out.mp4"
    ⟨"mp4", 0, 5, 10, "vp9", "aac", none, none, none, false, "balanced"⟩
    rfl (by decide) (by decide) (by decide) (by decide) (by decide) (by decide)).1

/-! ## C8: audio-only containers -/

/-- A list extended by one element never equals a four-element list with a
different last element. -/
theorem append_singleton_ne_four {α : Type} {l : List α} {x a b c d : α}
    (hx : x ≠ d) : l ++ [x] ≠ [a, b, c, d] := by
  intro h
  have hlen : l.length = 3 := by
    have := congrArg List.length h
    simpa using this
  obtain ⟨a1, b1, c1, hl⟩ := List.length_eq_three.mp hlen
  rw [hl] at h
  simp at h
  exact hx h.2.2.2

/-- A bitrate token (a numeral followed by k) is never the -c:v option. -/
theorem concat_k_ne_ccv (s : String) : s ++ "k" ≠ "-c:v" := by
  intro h
  have hd : s.data ++ ['k'] = ['-', 'c', ':', 'v'] := congrArg String.data h
  exact append_singleton_ne_four (by decide) hd

/-- A bitrate token is never the video stream selector 0:v?. -/
theorem concat_k_ne_vmap (s : String) : s ++ "k" ≠ "0:v?" := by
  intro h
  have hd : s.data ++ ['k'] = ['0', ':', 'v', '?'] := congrArg String.data h
  exact append_singleton_ne_four (by decide) hd

/-- Membership bound for the trim flags: only -ss, -to and formatted times
occur there. -/
theorem not_mem_trim_args {x : String} (fmt : ℚ → String) (p : ProcessPayload)
    (hss : x ≠ "-ss") (hto : x ≠ "-to") (hf : ∀ q, x ≠ fmt q) :
    x ∉ trim_args fmt p := by
  unfold trim_args
  intro hmem
  rcases List.mem_append.mp hmem with h | h
  · split_ifs at h with hc
    · rcases List.mem_cons.mp h with heq | h2
      · exact hss heq
      · exact hf _ (List.mem_singleton.mp h2)
    · simp at h
  · split_ifs at h with hc
    · rcases List.mem_cons.mp h with heq | h2
      · exact hto heq
      · exact hf _ (List.mem_singleton.mp h2)
    · simp at h

/-- Membership bound for the audio flags: only -c:a, the audio codec, copy,
-b:a and a bitrate token occur there. -/
theorem not_mem_audio_args {x : String} (p : ProcessPayload) (ac : String)
    (hca : x ≠ "-c:a") (hba : x ≠ "-b:a") (hacx : x ≠ ac) (hcopy : x ≠ "copy")
    (hk : ∀ s : String, x ≠ s ++ "k") :
    x ∉ audio_args p ac := by
  intro hmem
  unfold audio_args at hmem
  rcases hab : p.audioBitrate with _ | ab
  · simp only [hab] at hmem
    split_ifs at hmem with hc
    · rcases List.mem_append.mp hmem with h | h
      · rcases List.mem_cons.mp h with heq | h2
        · exact hca heq
        · exact hacx (List.mem_singleton.mp h2)
      · simp at h
    · rcases List.mem_cons.mp hmem with heq | h2
      · exact hca heq
      · exact hcopy (List.mem_singleton.mp h2)
  · simp only [hab] at hmem
    split_ifs at hmem with hc hz
    · rcases List.mem_append.mp hmem with h | h
      · rcases List.mem_cons.mp h with heq | h2
        · exact hca heq
        · exact hacx (List.mem_singleton.mp h2)
      · simp at h
    · rcases List.mem_append.mp hmem with h | h
      · rcases List.mem_cons.mp h with heq | h2
        · exact hca heq
        · exact hacx (List.mem_singleton.mp h2)
      · rcases List.mem_cons.mp h with heq | h2
        · exact hba heq
        · exact hk _ (List.mem_singleton.mp h2)
    · rcases List.mem_cons.mp hmem with heq | h2
      · exact hca heq
      · exact hcopy (List.mem_singleton.mp h2)

/-- For an audio-only container, the corrected audio codec is copy, one of
the four fixed encoder names, or (for ogg) the requested codec itself. -/
theorem corrected_audio_codec_cases (c ac : String)
    (hc : c = "mp3" ∨ c = "flac" ∨ c = "wav" ∨ c = "aac" ∨ c = "ogg") :
    corrected_audio_codec c ac = "copy" ∨
    corrected_audio_codec c ac = "libmp3lame" ∨
    corrected_audio_codec c ac = "flac" ∨
    corrected_audio_codec c ac = "aac" ∨
    corrected_audio_codec c ac = "pcm_s16le" ∨
    corrected_audio_codec c ac = ac := by
  by_cases hcopy : ac = "copy"
  · left
    simp [corrected_audio_codec, hcopy]
  · rcases hc with rfl | rfl | rfl | rfl | rfl <;>
      simp [corrected_audio_codec, hcopy]

/-- Tokens other than the constant options, the formatted times, the paths,
the corrected audio codec and bitrate tokens never occur in an audio-only
command line. -/
theorem not_mem_construct_audio_only {x : String} (fmt : ℚ → String)
    (detected : Option String) (input_path output_path : String) (p : ProcessPayload)
    (hAO : is_audio_only p.container = true)
    (hconst : x ∉ (["ffmpeg", "-y", "-analyzeduration", "100M", "-probesize",
      "-ignore_unknown", "-i", "-vn", "-map", "0:a?", "-fflags", "+genpts",
      "-hwaccel", "cuda", "qsv", "-hwaccel_output_format", "-ss", "-to", "-c:a",
      "-b:a", "copy"] : List String))
    (hf : ∀ q, x ≠ fmt q) (hinx : x ≠ input_path) (houtx : x ≠ output_path)
    (hacx : x ≠ corrected_audio_codec p.container p.audioCodec)
    (hk : ∀ s : String, x ≠ s ++ "k") :
    x ∉ construct_ffmpeg_command fmt detected input_path output_path p := by
  simp only [List.mem_cons, List.not_mem_nil, or_false, not_or] at hconst
  obtain ⟨hx1, hx2, hx3, hx4, hx5, hx6, hx7, hx8, hx9, hx10, hx11, hx12, hx13,
    hx14, hx15, hx16, hx17, hx18, hx19, hx20, hx21⟩ := hconst
  intro hmem
  simp only [construct_ffmpeg_command, hAO] at hmem
  have hva : ∀ vc b, video_args p true vc b = [] := fun _ _ => rfl
  simp only [hva, List.nil_append] at hmem
  rcases List.mem_append.mp hmem with h | h
  · unfold cmd_front at h
    rcases List.mem_append.mp h with h | h1
    case inr => simp [hx11, hx12] at h1
    rcases List.mem_append.mp h with h | h1
    case inr => simp [stream_map_args, hx8, hx9, hx10] at h1
    rcases List.mem_append.mp h with h | h1
    case inr => exact not_mem_trim_args fmt p hx17 hx18 hf h1
    rcases List.mem_append.mp h with h | h1
    case inr =>
      rcases List.mem_cons.mp h1 with heq | h1
      · exact hx7 heq
      · exact hinx (List.mem_singleton.mp h1)
    rcases List.mem_append.mp h with h | h1
    case inr => simp [hx6] at h1
    rcases List.mem_append.mp h with h | h1
    case inr => simp [hx3, hx4, hx5] at h1
    rcases List.mem_append.mp h with h | h1
    case inr =>
      revert h1
      unfold hwAccelFlags
      split_ifs <;> simp [hx13, hx14, hx15, hx16]
    rcases List.mem_cons.mp h with heq | h1
    · exact hx1 heq
    · exact hx2 (List.mem_singleton.mp h1)
  · rcases List.mem_append.mp h with h1 | h
    · exact not_mem_audio_args p _ hx19 hx20 hacx hx21 hk h1
    · exact houtx (List.mem_singleton.mp h)

/-- C8: for every audio-only output container, the synthesized argv
contains -vn, maps only the audio streams (the adjacent pair -map 0:a?
appears and the video selector 0:v? never does), and carries no -c:v
option, whatever video codec the request carries; the embedded synthesizer
never reads the input file, so the input's own codec cannot influence the
result.  The path, time-format and audio-codec hypotheses only rule out a
caller-supplied string that is itself the literal token -c:v or 0:v?. -/
theorem audio_only_no_video_stream (fmt : ℚ → String) (detected : Option String)
    (input_path output_path : String) (p : ProcessPayload)
    (hcont : p.container = "mp3" ∨ p.container = "flac" ∨ p.container = "wav" ∨
      p.container = "aac" ∨ p.container = "ogg")
    (hfmt : ∀ q : ℚ, fmt q ≠ "-c:v" ∧ fmt q ≠ "0:v?")
    (hin : input_path ≠ "-c:v" ∧ input_path ≠ "0:v?")
    (hout : output_path ≠ "-c:v" ∧ output_path ≠ "0:v?")
    (hac : p.audioCodec ≠ "-c:v" ∧ p.audioCodec ≠ "0:v?") :
    "-vn" ∈ construct_ffmpeg_command fmt detected input_path output_path p ∧
    (["-map", "0:a?"] <:+:
      construct_ffmpeg_command fmt detected input_path output_path p) ∧
    "-c:v" ∉ construct_ffmpeg_command fmt detected input_path output_path p ∧
    "0:v?" ∉ construct_ffmpeg_command fmt detected input_path output_path p := by
  have hAO : is_audio_only p.container = true := by
    rcases hcont with h | h | h | h | h <;> rw [h] <;> rfl
  have haccases := corrected_audio_codec_cases p.container p.audioCodec hcont
  have hacc : corrected_audio_codec p.container p.audioCodec ≠ "-c:v" := by
    rcases haccases with h | h | h | h | h | h <;> rw [h] <;>
      first | exact hac.1 | decide
  have hacv : corrected_audio_codec p.container p.audioCodec ≠ "0:v?" := by
    rcases haccases with h | h | h | h | h | h <;> rw [h] <;>
      first | exact hac.2 | decide
  refine ⟨?_, ?_, ?_, ?_⟩
  · simp only [construct_ffmpeg_command, hAO]
    simp [cmd_front, stream_map_args, List.mem_append]
  · simp only [construct_ffmpeg_command, hAO]
    refine ⟨["ffmpeg", "-y"] ++
      hwAccelFlags (if p.useHardwareAcceleration then detected else none)
        p.useHardwareAcceleration ++
      ["-analyzeduration", "100M", "-probesize", "100M"] ++ ["-ignore_unknown"] ++
      ["-i", input_path] ++ trim_args fmt p ++ ["-vn"],
      ["-fflags", "+genpts"] ++
        (video_args p true
          (corrected_video_codec p.container true
            (hw_video_codec (if p.useHardwareAcceleration then detected else none)
              p.useHardwareAcceleration p.videoCodec)) p.useHardwareAcceleration ++
          (audio_args p (corrected_audio_codec p.container p.audioCodec) ++
            [output_path])), ?_⟩
    simp [cmd_front, stream_map_args, List.append_assoc]
  · exact not_mem_construct_audio_only fmt detected input_path output_path p hAO
      (by decide) (fun q => Ne.symm (hfmt q).1) (Ne.symm hin.1) (Ne.symm hout.1)
      (Ne.symm hacc) (fun s => Ne.symm (concat_k_ne_ccv s))
  · exact not_mem_construct_audio_only fmt detected input_path output_path p hAO
      (by decide) (fun q => Ne.symm (hfmt q).2) (Ne.symm hin.2) (Ne.symm hout.2)
      (Ne.symm hacv) (fun s => Ne.symm (concat_k_ne_vmap s))

/-- Witness for C8 at a concrete mp3 request carrying a video codec and
bitrates: -vn present, audio-only mapping present, no -c:v and no 0:v?. -/
theorem audio_only_no_video_stream_witness :
    "-vn" ∈ construct_ffmpeg_command (fun _ => "0") (some "nvidia") "in.mp4"
      "out.mp3" ⟨"mp3", 2, 8, 10, "libx264", "aac", some 5, some 128,
        some (640, 480, true), true, "fast"⟩ ∧
    (["-map", "0:a?"] <:+: construct_ffmpeg_command (fun _ => "0") (some "nvidia")
      "in.mp4" "out.mp3" ⟨"mp3", 2, 8, 10, "libx264", "aac", some 5, some 128,
        some (640, 480, true), true, "fast"⟩) ∧
    "-c:v" ∉ construct_ffmpeg_command (fun _ => "0") (some "nvidia") "in.mp4"
      "out.mp3" ⟨"mp3", 2, 8, 10, "libx264", "aac", some 5, some 128,
        some (640, 480, true), true, "fast"⟩ ∧
    "0:v?" ∉ construct_ffmpeg_command (fun _ => "0") (some "nvidia") "in.mp4"
      "out.mp3" ⟨"mp3", 2, 8, 10, "libx264", "aac", some 5, some 128,
        some (640, 480, true), true, "fast"⟩ :=
  audio_only_no_video_stream (fun _ => "0") (some "nvidia") "in.mp4" "out.mp3"
    ⟨"mp3", 2, 8, 10, "libx264", "aac", some 5, some 128, some (640, 480, true),
      true, "fast"⟩
    (Or.inl rfl)
    (fun _ => ⟨(by decide : ("0" : String) ≠ "-c:v"),
      (by decide : ("0" : String) ≠ "0:v?")⟩)
    ⟨by decide, by decide⟩ ⟨by decide, by decide⟩ ⟨by decide, by decide⟩

end FfmpegUI
